import Mathlib

/-!
# A verification model of the go-srtla SRTLA receiver

This file gives a shallow embedding, in Lean 4, of the core of the
go-srtla SRTLA (SRT Link Aggregation) receiver, and proves the central
functional-correctness and invariant properties of its registration
protocol, forwarding policy, liveness accounting and janitor.

Modelling conventions:
* UDP datagrams are `List Nat` of byte values (big-endian fields are
  assembled exactly as the source does with `encoding/binary`);
* client UDP addresses are opaque naturals with decidable equality;
* time is an abstract natural number of seconds (all timeouts in the
  source are whole seconds);
* each operation is a pure function from registry state to registry
  state plus the list of datagrams written to the SRTLA listener socket
  (`WriteToUDP` calls), in order; outcomes of fallible sends and of
  socket creation are explicit boolean parameters;
* Go slices become lists, Go `copy` becomes `goCopy`, fixed arrays
  become lists of the corresponding length, `int` becomes `Int`.
-/

namespace GoSrtla

abbrev Bytes := List Nat
abbrev Addr := Nat
abbrev Send := Addr × Bytes

/-! ## Constants (from the `const` block of the source) -/

def SRTMinLen : Nat := 16
def SRTTypeACK : Nat := 0x8002
def SRTTypeNAK : Nat := 0x8003
def SRTLATypeKeepalive : Nat := 0x9000
def SRTLATypeACK : Nat := 0x9100
def SRTLATypeReg1 : Nat := 0x9200
def SRTLATypeReg2 : Nat := 0x9201
def SRTLATypeReg3 : Nat := 0x9202
def SRTLATypeRegErr : Nat := 0x9210
def SRTLATypeRegNGP : Nat := 0x9211
def SRTLAIDLen : Nat := 256
def SRTLAReg1Len : Nat := 2 + SRTLAIDLen
def SRTLAReg2Len : Nat := 2 + SRTLAIDLen
def RecvACKInterval : Nat := 10
def MaxConnsPerGroup : Nat := 16
def MaxGroups : Nat := 200
/-- Timeouts, in seconds. -/
def GroupTimeout : Nat := 4
def ConnTimeout : Nat := 4
def KeepalivePeriod : Nat := 1

/-! ## Byte-level helpers (`encoding/binary`, big endian) -/

/-- `binary.BigEndian.PutUint16` into a fresh 2-byte buffer. -/
def putUint16 (v : Nat) : Bytes := [v / 256 % 256, v % 256]

/-- `binary.BigEndian.PutUint32` into a fresh 4-byte buffer. -/
def putUint32 (v : Nat) : Bytes :=
  [v / 2 ^ 24 % 256, v / 2 ^ 16 % 256, v / 2 ^ 8 % 256, v % 256]

/-- `getSRTType`: 0 for short packets, else the first big-endian 16-bit word. -/
def getSRTType (pkt : Bytes) : Nat :=
  match pkt with
  | b0 :: b1 :: _ => b0 * 256 + b1
  | _ => 0

/-- First big-endian 32-bit word of a packet (callers guard the length). -/
def be32 (pkt : Bytes) : Nat :=
  match pkt with
  | b0 :: b1 :: b2 :: b3 :: _ => ((b0 * 256 + b1) * 256 + b2) * 256 + b3
  | _ => 0

/-- `getSRTSN`: the SRT sequence number of a data packet (bit 31 of the
first word clear), `-1` for control packets or packets shorter than 4. -/
def getSRTSN (pkt : Bytes) : Int :=
  if pkt.length < 4 then -1
  else
    let sn := be32 pkt
    if sn.testBit 31 then -1 else (sn : Int)

/-- `constantTimeCompare`'s accumulation loop: OR together the XOR of
corresponding bytes. -/
def ctcLoop : Bytes → Bytes → Nat → Nat
  | x :: a, y :: b, diff => ctcLoop a b (diff ||| (x ^^^ y))
  | _, _, diff => diff

/-- `constantTimeCompare`: length check, then the XOR/OR loop. -/
def constantTimeCompare (a b : Bytes) : Bool :=
  if a.length ≠ b.length then false else ctcLoop a b 0 = 0

/-- Go's `copy(dst, src)`: overwrite the prefix of `dst` with bytes of
`src`, up to the shorter of the two lengths. -/
def goCopy (dst src : Bytes) : Bytes :=
  src.take (min dst.length src.length) ++ dst.drop (min dst.length src.length)

/-! ## Data model: `Conn`, `Group`, the registry -/

/-- A `Conn` (a client path within a group). `recvIdx` is a Go `int`. -/
structure Conn where
  addr : Addr
  lastRcvd : Nat
  recvIdx : Int
  recvLog : List Nat
  deriving DecidableEq, Repr

instance : Inhabited Conn :=
  ⟨{ addr := 0, lastRcvd := 0, recvIdx := 0,
     recvLog := List.replicate RecvACKInterval 0 }⟩

/-- `&Conn{addr: addr, lastRcvd: time.Now()}`: zero value for the rest. -/
def mkConn (a : Addr) (now : Nat) : Conn :=
  { addr := a, lastRcvd := now, recvIdx := 0,
    recvLog := List.replicate RecvACKInterval 0 }

/-- A `Group`. `srtSock` records whether the downstream socket exists. -/
structure Group where
  id : Bytes
  conns : List Conn
  createdAt : Nat
  srtSock : Bool
  lastAddr : Option Addr
  deriving DecidableEq, Repr

instance : Inhabited Group :=
  ⟨{ id := [], conns := [], createdAt := 0, srtSock := false, lastAddr := none }⟩

/-- The global registry: the `groups` slice. -/
structure Registry where
  groups : List Group
  deriving DecidableEq, Repr

/-! ## Lookup helpers -/

/-- Index of the first conn of `g` whose address equals `a`
(the loop in `registerConn` / `findByAddr`). -/
def findConnIdx (g : Group) (a : Addr) : Option Nat :=
  g.conns.findIdx? (fun c => c.addr == a)

/-- `findByAddr`: first group matching `a` (its conns first, then its
`lastAddr`); returns the group index and the matching conn index, if any. -/
def findByAddr : List Group → Addr → Option (Nat × Option Nat)
  | [], _ => none
  | g :: gs, a =>
    match findConnIdx g a with
    | some j => some (0, some j)
    | none =>
      if g.lastAddr == some a then some (0, none)
      else
        match findByAddr gs a with
        | some (i, x) => some (i + 1, x)
        | none => none

/-- `findGroupByID`: index of the first group whose id compares equal to
`id` under `constantTimeCompare`. -/
def findGroupIdx (groups : List Group) (id : Bytes) : Option Nat :=
  groups.findIdx? (fun g => constantTimeCompare g.id id)

/-! ## Group construction and registration -/

/-- `newGroup`: id is 256 zero bytes overwritten by the client half in
the first 128 bytes and the random half in the last 128. -/
def newGroup (clientID rnd : Bytes) (now : Nat) : Group :=
  let id0 : Bytes := List.replicate SRTLAIDLen 0
  let id1 := goCopy (id0.take (SRTLAIDLen / 2)) clientID ++ id0.drop (SRTLAIDLen / 2)
  let id2 := id1.take (SRTLAIDLen / 2) ++ goCopy (id1.drop (SRTLAIDLen / 2)) rnd
  { id := id2, conns := [], createdAt := now, srtSock := false, lastAddr := none }

/-- `sendRegErr`: one 2-byte `0x9210` datagram to `addr`. -/
def sendRegErr (a : Addr) : List Send := [(a, putUint16 SRTLATypeRegErr)]

/-- `registerGroup`. `rnd` is the output of `randomBytes(128)`; `sendOk`
is the outcome of the `WriteToUDP` of the REG2 reply. The group is
appended only when that send succeeds. -/
def registerGroup (st : Registry) (addr : Addr) (pkt : Bytes) (rnd : Bytes)
    (sendOk : Bool) (now : Nat) : Registry × List Send :=
  if st.groups.length ≥ MaxGroups then (st, sendRegErr addr)
  else if (findByAddr st.groups addr).isSome then (st, sendRegErr addr)
  else
    let clientID := goCopy (List.replicate (SRTLAIDLen / 2) 0)
      ((pkt.drop 2).take (SRTLAIDLen / 2))
    let g0 := newGroup clientID rnd now
    let g := { g0 with lastAddr := some addr }
    let out := putUint16 SRTLATypeReg2 ++ g.id
    if sendOk then ({ groups := st.groups ++ [g] }, [(addr, out)])
    else (st, [(addr, out)])

/-- `registerConn`. `sendOk` is the outcome of the REG3 `WriteToUDP`;
the conn is appended (and `lastAddr` updated) only when it succeeds. -/
def registerConn (st : Registry) (addr : Addr) (pkt : Bytes)
    (sendOk : Bool) (now : Nat) : Registry × List Send :=
  match findGroupIdx st.groups (pkt.drop 2) with
  | none => (st, [(addr, putUint16 SRTLATypeRegNGP)])
  | some i =>
    let clash : Bool :=
      match findByAddr st.groups addr with
      | some (k, _) => k != i
      | none => false
    if clash then (st, sendRegErr addr)
    else
      let g := st.groups.getD i default
      let exJ := findConnIdx g addr
      if exJ = none ∧ g.conns.length ≥ MaxConnsPerGroup then (st, sendRegErr addr)
      else if ¬ sendOk then (st, [(addr, putUint16 SRTLATypeReg3)])
      else
        let g' :=
          if exJ = none then
            { g with conns := g.conns ++ [mkConn addr now], lastAddr := some addr }
          else { g with lastAddr := some addr }
        ({ groups := st.groups.set i g' }, [(addr, putUint16 SRTLATypeReg3)])

/-! ## SRT downstream fan-out -/

/-- `handleSRTData`: broadcast SRT ACK/NAK to every conn, unicast
everything else to `lastAddr`; drop short reads. -/
def handleSRTData (g : Group) (pkt : Bytes) : List Send :=
  if pkt.length < SRTMinLen then []
  else if getSRTType pkt = SRTTypeACK ∨ getSRTType pkt = SRTTypeNAK then
    g.conns.map (fun c => (c.addr, pkt))
  else
    match g.lastAddr with
    | some dst => [(dst, pkt)]
    | none => []

/-! ## Per-path SRT sequence accounting -/

/-- Go's `uint32(sn)` conversion of an `int32`. -/
def u32 (n : Int) : Nat := (n % (2 ^ 32 : Int)).toNat

/-- The 44-byte SRTLA ACK packet: `uint32(0x9100) << 16` then the ten
logged sequence numbers, big endian. -/
def srtlaAckPkt (log : List Nat) : Bytes :=
  putUint32 (SRTLATypeACK * 2 ^ 16) ++ (log.map putUint32).flatten

/-- `registerPacket`: clamp the incremented index into `[1,10]`, record
the sequence number, and emit the SRTLA ACK exactly when the index
reaches 10, resetting it to 0. -/
def registerPacket (c : Conn) (sn : Int) : Conn × List Send :=
  let idx0 := c.recvIdx + 1
  let idx := if idx0 ≤ 0 ∨ idx0 > (RecvACKInterval : Int) then 1 else idx0
  let c1 := { c with recvIdx := idx,
                     recvLog := c.recvLog.set (idx - 1).toNat (u32 sn) }
  if c1.recvIdx = (RecvACKInterval : Int) then
    ({ c1 with recvIdx := 0 }, [(c1.addr, srtlaAckPkt c1.recvLog)])
  else (c1, [])

/-! ## The SRTLA ingress handler -/

/-- Replace group `i` by `f` of it. -/
def updateGroupAt (st : Registry) (i : Nat) (f : Group → Group) : Registry :=
  { groups := st.groups.set i (f (st.groups.getD i default)) }

/-- Replace conn `j` of `g` by `f` of it. -/
def updateConnAt (g : Group) (j : Nat) (f : Conn → Conn) : Group :=
  { g with conns := g.conns.set j (f (g.conns.getD j default)) }

/-- `removeGroup` reached through group index `i`. -/
def eraseGroupAt (st : Registry) (i : Nat) : Registry :=
  { groups := st.groups.eraseIdx i }

/-- `isSRTLAReg1`: exact length 258 and type `0x9200`. -/
def isSRTLAReg1 (pkt : Bytes) : Prop :=
  pkt.length = SRTLAReg1Len ∧ getSRTType pkt = SRTLATypeReg1

/-- `isSRTLAReg2`: exact length 258 and type `0x9201`. -/
def isSRTLAReg2 (pkt : Bytes) : Prop :=
  pkt.length = SRTLAReg2Len ∧ getSRTType pkt = SRTLATypeReg2

instance (pkt : Bytes) : Decidable (isSRTLAReg1 pkt) := by
  unfold isSRTLAReg1; infer_instance

instance (pkt : Bytes) : Decidable (isSRTLAReg2 pkt) := by
  unfold isSRTLAReg2; infer_instance

/-- `ensureGroupSocket` followed by the forward `Write` to the SRT
socket: `sockOk` is the outcome of creating the socket when the group
has none yet, `fwdOk` the outcome of the write; either failure removes
the group, as the source does. The write itself goes to the SRT socket,
not to the SRTLA listener, so it adds nothing to the send list. -/
def forwardStep (st : Registry) (i : Nat) (acks : List Send)
    (sockOk fwdOk : Bool) : Registry × List Send :=
  if (st.groups.getD i default).srtSock then
    if fwdOk then (st, acks) else (eraseGroupAt st i, acks)
  else if ¬ sockOk then (eraseGroupAt st i, acks)
  else
    let st4 := updateGroupAt st i (fun g => { g with srtSock := true })
    if fwdOk then (st4, acks) else (eraseGroupAt st4 i, acks)

/-- The tail of `handleSRTLAIncoming` once `findByAddr` has bound the
datagram to conn `j` of group `i`: refresh `lastRcvd`, echo keepalives,
drop short packets, update `lastAddr`, account the sequence number, and
forward downstream. -/
def handleBound (st : Registry) (i j : Nat) (pkt : Bytes) (addr : Addr)
    (now : Nat) (sockOk fwdOk : Bool) : Registry × List Send :=
  let st1 := updateGroupAt st i
    (fun g => updateConnAt g j (fun c => { c with lastRcvd := now }))
  if getSRTType pkt = SRTLATypeKeepalive then (st1, [(addr, pkt)])
  else if pkt.length < SRTMinLen then (st1, [])
  else
    let st2 := updateGroupAt st1 i (fun g => { g with lastAddr := some addr })
    let sn := getSRTSN pkt
    let step3 :=
      if sn ≥ 0 then
        let c := (st2.groups.getD i default).conns.getD j default
        let r := registerPacket c sn
        (updateGroupAt st2 i (fun g => updateConnAt g j (fun _ => r.1)), r.2)
      else (st2, ([] : List Send))
    forwardStep step3.1 i step3.2 sockOk fwdOk

/-- `handleSRTLAIncoming`: one datagram `pkt` from `addr` at time `now`.
`rnd`/`sendOk` feed a possible registration. -/
def handleSRTLAIncoming (st : Registry) (pkt : Bytes) (addr : Addr)
    (rnd : Bytes) (sendOk : Bool) (now : Nat) (sockOk fwdOk : Bool) :
    Registry × List Send :=
  if isSRTLAReg1 pkt then registerGroup st addr pkt rnd sendOk now
  else if isSRTLAReg2 pkt then registerConn st addr pkt sendOk now
  else
    match findByAddr st.groups addr with
    | none => (st, [])
    | some (_, none) => (st, [])
    | some (i, some j) => handleBound st i j pkt addr now sockOk fwdOk

/-! ## The janitor (`cleanup`) -/

/-- One group's conn sweep: drop conns idle for `ConnTimeout`, send a
keepalive to conns idle for `KeepalivePeriod`, in iteration order. -/
def cleanupConns (now : Nat) : List Conn → List Conn × List Send
  | [] => ([], [])
  | c :: rest =>
    let r := cleanupConns now rest
    if now - c.lastRcvd ≥ ConnTimeout then r
    else if now - c.lastRcvd ≥ KeepalivePeriod then
      (c :: r.1, (c.addr, putUint16 SRTLATypeKeepalive) :: r.2)
    else (c :: r.1, r.2)

/-- The group sweep: sweep each group's conns, then drop groups left
with no conns that are older than `GroupTimeout`. -/
def cleanupGroups (now : Nat) : List Group → List Group × List Send
  | [] => ([], [])
  | g :: rest =>
    let swept := cleanupConns now g.conns
    let g' := { g with conns := swept.1 }
    let r := cleanupGroups now rest
    if g'.conns.length = 0 ∧ now - g'.createdAt > GroupTimeout then
      (r.1, swept.2 ++ r.2)
    else (g' :: r.1, swept.2 ++ r.2)

/-- `cleanup`: one janitor tick over the whole registry. -/
def cleanup (st : Registry) (now : Nat) : Registry × List Send :=
  ({ groups := (cleanupGroups now st.groups).1 }, (cleanupGroups now st.groups).2)

/-! ## The state machine: reachable registry states -/

/-- The registry before any datagram: the empty `groups` slice. -/
def initRegistry : Registry := { groups := [] }

/-- One transition of the receiver: an inbound SRTLA datagram (which
covers both registrations and data), a janitor tick, or a downstream
SRT read failure removing a group. -/
inductive Step : Registry → Registry → Prop where
  | incoming (pkt : Bytes) (addr : Addr) (rnd : Bytes) (sendOk : Bool)
      (now : Nat) (sockOk fwdOk : Bool) (st : Registry) :
      Step st (handleSRTLAIncoming st pkt addr rnd sendOk now sockOk fwdOk).1
  | tick (now : Nat) (st : Registry) : Step st (cleanup st now).1
  | srtReadFail (i : Nat) (st : Registry) : Step st (eraseGroupAt st i)

/-- Registry states reachable from the initial state. -/
inductive Reachable : Registry → Prop where
  | init : Reachable initRegistry
  | step {st st' : Registry} : Reachable st → Step st st' → Reachable st'

/-! ## Address-uniqueness invariant -/

/-- Does some conn of `g` carry address `a`? -/
def connHasAddr (g : Group) (a : Addr) : Bool :=
  g.conns.any (fun c => c.addr == a)

/-- Does `g` own address `a`, through a conn or through `lastAddr`? -/
def groupOwns (g : Group) (a : Addr) : Bool :=
  connHasAddr g a || (g.lastAddr == some a)

/-- The inductive invariant: conn addresses are distinct within every
group, and every address is owned (conn or `lastAddr`) by at most one
group. -/
def RegInv (st : Registry) : Prop :=
  (∀ g ∈ st.groups, (g.conns.map Conn.addr).Nodup) ∧
  ∀ a : Addr, st.groups.countP (fun g => groupOwns g a) ≤ 1

/-- The claimed property: no address is a conn of two groups, nor twice
a conn of one group. -/
def NoDupAddrs (st : Registry) : Prop :=
  (∀ g ∈ st.groups, (g.conns.map Conn.addr).Nodup) ∧
  ∀ a : Addr, st.groups.countP (fun g => connHasAddr g a) ≤ 1

/-- Fold `registerPacket` over a list of sequence numbers, collecting
the ACKs sent along the way (the per-path accounting of a run of SRT
data packets). -/
def runPackets (c : Conn) : List Int → Conn × List Send
  | [] => (c, [])
  | sn :: rest =>
    ((runPackets (registerPacket c sn).1 rest).1,
     (registerPacket c sn).2 ++ (runPackets (registerPacket c sn).1 rest).2)

/-! ## Concrete fixtures used by witness theorems -/

def fanoutGroup : Group :=
  { id := [], conns := [mkConn 1 0, mkConn 2 0], createdAt := 0,
    srtSock := true, lastAddr := some 9 }

def fanoutPkt : Bytes := putUint16 SRTTypeACK ++ List.replicate 14 0

/-- A valid 258-byte REG1 whose client half is 128 bytes of `7`. -/
def reg1Fixture : Bytes :=
  putUint16 SRTLATypeReg1 ++ List.replicate 128 7 ++ List.replicate 128 0

/-- A group as registered from `reg1Fixture` at address 42 with random
half 128 bytes of `9`. -/
def groupFixture : Group :=
  { id := List.replicate 128 7 ++ List.replicate 128 9,
    conns := [], createdAt := 0, srtSock := false, lastAddr := some 42 }

/-- The matching 258-byte REG2 for `groupFixture`. -/
def reg2Fixture : Bytes := putUint16 SRTLATypeReg2 ++ groupFixture.id

/-- `groupFixture` with one registered conn at address 42. -/
def boundGroupFixture : Group :=
  { groupFixture with conns := [mkConn 42 6] }

def boundRegistry : Registry := { groups := [boundGroupFixture] }

/-- A keepalive datagram with a 3-byte opaque body. -/
def keepaliveFixture : Bytes := putUint16 SRTLATypeKeepalive ++ [1, 2, 3]

/-! ## Basic lemmas about the byte helpers -/

lemma lor_eq_zero {a b : Nat} (h : a ||| b = 0) : a = 0 ∧ b = 0 := by
  constructor <;> apply Nat.eq_of_testBit_eq <;> intro k <;>
    have hk := congrArg (fun x => Nat.testBit x k) h <;>
    simp [Nat.testBit_lor] at hk <;> simp [hk]

lemma ctcLoop_eq_zero_iff :
    ∀ (a b : Bytes) (d : Nat), a.length = b.length →
      (ctcLoop a b d = 0 ↔ d = 0 ∧ a = b) := by
  intro a
  induction a with
  | nil =>
    intro b d hlen
    cases b with
    | nil => simp [ctcLoop]
    | cons y b => simp at hlen
  | cons x a ih =>
    intro b d hlen
    cases b with
    | nil => simp at hlen
    | cons y b =>
      simp only [List.length_cons, Nat.add_right_cancel_iff] at hlen
      show ctcLoop a b (d ||| (x ^^^ y)) = 0 ↔ _
      rw [ih b _ hlen]
      constructor
      · rintro ⟨h1, rfl⟩
        obtain ⟨hd, hxy⟩ := lor_eq_zero h1
        exact ⟨hd, by simp [Nat.xor_eq_zero.mp hxy]⟩
      · rintro ⟨rfl, h⟩
        injection h with h1 h2
        subst h1; subst h2
        simp

lemma constantTimeCompare_eq_true_iff (a b : Bytes) :
    constantTimeCompare a b = true ↔ a = b := by
  unfold constantTimeCompare
  split
  · rename_i h
    constructor
    · intro hf; exact absurd hf (by simp)
    · intro hab; exact absurd (hab ▸ rfl) h
  · rename_i h
    rw [not_ne_iff] at h
    rw [decide_eq_true_iff, ctcLoop_eq_zero_iff a b 0 h]
    simp

lemma constantTimeCompare_eq_beq (a b : Bytes) :
    constantTimeCompare a b = (a == b) := by
  by_cases h : a = b
  · simp [h, constantTimeCompare_eq_true_iff]
  · have h1 : constantTimeCompare a b = false := by
      cases hc : constantTimeCompare a b
      · rfl
      · exact absurd ((constantTimeCompare_eq_true_iff a b).mp hc) h
    simp [h1, h]

lemma goCopy_eq_src (dst src : Bytes) (h : dst.length = src.length) :
    goCopy dst src = src := by
  simp [goCopy, h, List.take_length, List.drop_length]

lemma length_putUint32 (v : Nat) : (putUint32 v).length = 4 := rfl

lemma newGroup_id (clientID rnd : Bytes)
    (hc : clientID.length = SRTLAIDLen / 2) (hr : rnd.length = SRTLAIDLen / 2)
    (now : Nat) : (newGroup clientID rnd now).id = clientID ++ rnd := by
  have h128 : SRTLAIDLen / 2 = 128 := rfl
  rw [h128] at hc hr
  have h1 : (List.replicate SRTLAIDLen (0 : Nat)).take (SRTLAIDLen / 2)
      = List.replicate 128 0 := by
    rw [List.take_replicate, h128]; norm_num [SRTLAIDLen]
  have h2 : (List.replicate SRTLAIDLen (0 : Nat)).drop (SRTLAIDLen / 2)
      = List.replicate 128 0 := by
    rw [List.drop_replicate, h128]; norm_num [SRTLAIDLen]
  simp only [newGroup, h1, h2]
  rw [goCopy_eq_src _ _ (by simp [hc])]
  rw [h128, List.take_left' hc, List.drop_left' hc]
  rw [goCopy_eq_src _ _ (by simp [hr])]

/-! ## List update and lookup lemmas -/

lemma getD_set_self {α : Type} [Inhabited α] (l : List α) (i : Nat) (x : α)
    (hi : i < l.length) : (l.set i x).getD i default = x := by
  rw [List.getD_eq_getElem _ _ (by simpa using hi)]
  exact List.getElem_set_self _

lemma getD_set_ne {α : Type} [Inhabited α] (l : List α) (i k : Nat) (x : α)
    (h : i ≠ k) : (l.set i x).getD k default = l.getD k default := by
  by_cases hk : k < l.length
  · rw [List.getD_eq_getElem _ _ (by simpa using hk),
      List.getD_eq_getElem _ _ hk]
    exact List.getElem_set_ne h _
  · rw [List.getD_eq_default _ _ (by simpa using Nat.le_of_not_lt hk),
      List.getD_eq_default _ _ (Nat.le_of_not_lt hk)]

lemma map_addr_set_of_addr_eq :
    ∀ (conns : List Conn) (j : Nat) (c' : Conn),
      c'.addr = (conns.getD j default).addr →
      (conns.set j c').map Conn.addr = conns.map Conn.addr := by
  intro conns
  induction conns with
  | nil => intro j c' _; rfl
  | cons c rest ih =>
    intro j c' h
    cases j with
    | zero => simp_all [List.getD]
    | succ j => simp only [List.set, List.map_cons, ih j c' h]

lemma any_map_general {α β : Type} (f : α → β) (p : β → Bool) :
    ∀ l : List α, (l.map f).any p = l.any (fun x => p (f x)) := by
  intro l
  induction l with
  | nil => rfl
  | cons x rest ih => simp [ih]

lemma connHasAddr_eq_any_map (g : Group) (a : Addr) :
    connHasAddr g a = (g.conns.map Conn.addr).any (fun x => x == a) := by
  rw [connHasAddr, any_map_general]

lemma connHasAddr_congr {g g' : Group} (a : Addr)
    (h : g'.conns.map Conn.addr = g.conns.map Conn.addr) :
    connHasAddr g' a = connHasAddr g a := by
  rw [connHasAddr_eq_any_map, connHasAddr_eq_any_map, h]

lemma connHasAddr_true_iff (g : Group) (a : Addr) :
    connHasAddr g a = true ↔ a ∈ g.conns.map Conn.addr := by
  rw [connHasAddr_eq_any_map, List.any_eq_true]
  constructor
  · rintro ⟨x, hx, he⟩
    rw [beq_iff_eq] at he
    exact he ▸ hx
  · intro ha
    exact ⟨a, ha, by simp⟩

/-! ### `findConnIdx` lemmas -/

lemma findConnIdx_none_iff (g : Group) (a : Addr) :
    findConnIdx g a = none ↔ connHasAddr g a = false := by
  rw [findConnIdx, List.findIdx?_eq_none_iff]
  constructor
  · intro h
    rw [connHasAddr]
    simp only [List.any_eq_false]
    intro c hc
    simpa using h c hc
  · intro h c hc
    rw [connHasAddr] at h
    simp only [List.any_eq_false] at h
    simpa using h c hc

lemma findConnIdx_some_connHasAddr {g : Group} {a : Addr} {j : Nat}
    (h : findConnIdx g a = some j) : connHasAddr g a = true := by
  have h1 : (findConnIdx g a).isSome = true := by rw [h]; rfl
  rw [findConnIdx, List.findIdx?_isSome] at h1
  exact h1

lemma findConnIdx_some_spec {g : Group} {a : Addr} {j : Nat}
    (h : findConnIdx g a = some j) :
    j < g.conns.length ∧ (g.conns.getD j default).addr = a := by
  rw [findConnIdx, List.findIdx?_eq_some_iff_findIdx_eq] at h
  obtain ⟨hj, hfi⟩ := h
  refine ⟨hj, ?_⟩
  have := @List.findIdx_getElem _ (fun c => c.addr == a) g.conns (hfi ▸ hj)
  rw [List.getD_eq_getElem _ _ hj]
  have h2 : g.conns[g.conns.findIdx fun c => c.addr == a].addr = a := by
    simpa using this
  subst hfi
  exact h2

/-! ### `findByAddr` lemmas -/

lemma findByAddr_none_iff : ∀ (gs : List Group) (a : Addr),
    findByAddr gs a = none ↔ ∀ g ∈ gs, groupOwns g a = false := by
  intro gs
  induction gs with
  | nil => simp [findByAddr]
  | cons g rest ih =>
    intro a
    rw [findByAddr]
    constructor
    · intro h g' hg'
      rcases List.mem_cons.mp hg' with rfl | hmem
      · cases hc : findConnIdx g' a with
        | some j => rw [hc] at h; exact absurd h (by simp)
        | none =>
          rw [hc] at h
          rw [groupOwns, (findConnIdx_none_iff g' a).mp hc]
          by_cases hl : g'.lastAddr == some a
          · rw [if_pos hl] at h; exact absurd h (by simp)
          · simpa using hl
      · cases hc : findConnIdx g a with
        | some j => rw [hc] at h; exact absurd h (by simp)
        | none =>
          rw [hc] at h
          by_cases hl : g.lastAddr == some a
          · rw [if_pos hl] at h; exact absurd h (by simp)
          · rw [if_neg hl] at h
            cases hfa : findByAddr rest a with
            | some p =>
              rw [hfa] at h
              exact absurd h (by cases p; simp)
            | none => exact (ih a).mp hfa g' hmem
    · intro h
      have hg := h g (List.mem_cons_self g rest)
      rw [groupOwns, Bool.or_eq_false_iff] at hg
      rw [(findConnIdx_none_iff g a).mpr hg.1, if_neg (by simp [hg.2])]
      rw [(ih a).mpr (fun g' hg' => h g' (List.mem_cons_of_mem g hg'))]

lemma findByAddr_some_spec : ∀ (gs : List Group) (a : Addr) (i : Nat)
    (x : Option Nat), findByAddr gs a = some (i, x) →
    i < gs.length ∧ groupOwns (gs.getD i default) a = true ∧
    (∀ j, x = some j → findConnIdx (gs.getD i default) a = some j) ∧
    (x = none → connHasAddr (gs.getD i default) a = false ∧
      (gs.getD i default).lastAddr = some a) := by
  intro gs
  induction gs with
  | nil => intro a i x h; exact absurd h (by simp [findByAddr])
  | cons g rest ih =>
    intro a i x h
    rw [findByAddr] at h
    cases hc : findConnIdx g a with
    | some j =>
      rw [hc] at h
      injection h with h'
      injection h' with h1 h2
      subst h1; subst h2
      refine ⟨by simp, ?_, ?_, by simp⟩
      · rw [List.getD_cons_zero, groupOwns]
        simp [findConnIdx_some_connHasAddr hc]
      · intro j' hj'
        injection hj' with hj'
        subst hj'
        rw [List.getD_cons_zero]
        exact hc
    | none =>
      rw [hc] at h
      by_cases hl : g.lastAddr == some a
      · rw [if_pos hl] at h
        injection h with h'
        injection h' with h1 h2
        subst h1; subst h2
        refine ⟨by simp, ?_, by simp, ?_⟩
        · rw [List.getD_cons_zero, groupOwns]
          simp [hl]
        · intro _
          rw [List.getD_cons_zero]
          exact ⟨(findConnIdx_none_iff g a).mp hc, by simpa using hl⟩
      · rw [if_neg hl] at h
        cases hfa : findByAddr rest a with
        | none => rw [hfa] at h; exact absurd h (by simp)
        | some p =>
          obtain ⟨i', x'⟩ := p
          rw [hfa] at h
          injection h with h'
          injection h' with h1 h2
          subst h2
          obtain ⟨ha, hb, hcx, hdx⟩ := ih a i' x' hfa
          subst h1
          refine ⟨by simpa using Nat.succ_lt_succ ha, ?_, ?_, ?_⟩
          · rw [List.getD_cons_succ]; exact hb
          · intro j hj
            rw [List.getD_cons_succ]; exact hcx j hj
          · intro hx
            rw [List.getD_cons_succ]; exact hdx hx

/-! ## Preservation of the address-uniqueness invariant -/

lemma registerPacket_addr (c : Conn) (sn : Int) :
    (registerPacket c sn).1.addr = c.addr := by
  rw [registerPacket]
  split <;> split <;> rfl

lemma registerPacket_lastRcvd (c : Conn) (sn : Int) :
    (registerPacket c sn).1.lastRcvd = c.lastRcvd := by
  rw [registerPacket]
  split <;> split <;> rfl

lemma groupOwns_of_map_lastAddr {g g' : Group} {a : Addr}
    (hmap : g'.conns.map Conn.addr = g.conns.map Conn.addr)
    (hlast : g'.lastAddr = g.lastAddr ∨
      ∃ b, g'.lastAddr = some b ∧ connHasAddr g b = true)
    (h : groupOwns g' a = true) : groupOwns g a = true := by
  rw [groupOwns, Bool.or_eq_true] at h ⊢
  rcases h with h | h
  · exact Or.inl ((connHasAddr_congr a hmap) ▸ h)
  · rcases hlast with he | ⟨b, hb, hc⟩
    · exact Or.inr (he ▸ h)
    · rw [hb] at h
      have hba : b = a := by simpa using h
      exact Or.inl (hba ▸ hc)

lemma regInv_updateGroupAt (st : Registry) (i : Nat) (f : Group → Group)
    (hinv : RegInv st) (hi : i < st.groups.length)
    (hmap : (f (st.groups.getD i default)).conns.map Conn.addr
          = (st.groups.getD i default).conns.map Conn.addr)
    (hlast : (f (st.groups.getD i default)).lastAddr
          = (st.groups.getD i default).lastAddr ∨
      ∃ b, (f (st.groups.getD i default)).lastAddr = some b ∧
        connHasAddr (st.groups.getD i default) b = true) :
    RegInv (updateGroupAt st i f) := by
  obtain ⟨hnd, hcnt⟩ := hinv
  have hgetd : st.groups[i] = st.groups.getD i default :=
    (List.getD_eq_getElem _ _ hi).symm
  have himem : st.groups.getD i default ∈ st.groups := by
    rw [← hgetd]; exact List.getElem_mem _
  constructor
  · intro g hg
    rcases List.mem_or_eq_of_mem_set hg with h | rfl
    · exact hnd g h
    · rw [hmap]
      exact hnd _ himem
  · intro a
    show (st.groups.set i _).countP (fun g => groupOwns g a) ≤ 1
    rw [List.countP_set _ _ _ _ hi]
    have hb := hcnt a
    by_cases hp : groupOwns (f (st.groups.getD i default)) a = true
    · have hpi : groupOwns st.groups[i] a = true := by
        rw [hgetd]; exact groupOwns_of_map_lastAddr hmap hlast hp
      have hone : 0 < st.groups.countP (fun g => groupOwns g a) :=
        List.countP_pos_iff.mpr ⟨st.groups[i], List.getElem_mem _, hpi⟩
      rw [if_pos hp, if_pos hpi]
      omega
    · rw [if_neg hp]
      split <;> omega

lemma regInv_sublist {st st' : Registry} (hinv : RegInv st)
    (h : st'.groups.Sublist st.groups) : RegInv st' := by
  obtain ⟨hnd, hcnt⟩ := hinv
  exact ⟨fun g hg => hnd g (h.mem hg),
    fun a => le_trans (h.countP_le _) (hcnt a)⟩

lemma regInv_eraseGroupAt (st : Registry) (i : Nat) (hinv : RegInv st) :
    RegInv (eraseGroupAt st i) :=
  regInv_sublist hinv (List.eraseIdx_sublist _ _)

lemma regInv_append_group (st : Registry) (g : Group) (addr : Addr)
    (hinv : RegInv st) (hconns : g.conns = []) (hlast : g.lastAddr = some addr)
    (hfree : findByAddr st.groups addr = none) :
    RegInv { groups := st.groups ++ [g] } := by
  obtain ⟨hnd, hcnt⟩ := hinv
  have hnone := (findByAddr_none_iff st.groups addr).mp hfree
  constructor
  · intro g' hg'
    rcases List.mem_append.mp hg' with h | h
    · exact hnd g' h
    · have : g' = g := by simpa using h
      subst this
      simp [hconns]
  · intro a
    rw [List.countP_append]
    by_cases ha : a = addr
    · subst ha
      have hz : st.groups.countP (fun g => groupOwns g a) = 0 :=
        List.countP_eq_zero.mpr (fun g' hg' => by simp [hnone g' hg'])
      have : ([g].countP fun g => groupOwns g a) ≤ 1 := by
        simp [List.countP_cons]
        split <;> omega
      omega
    · have hg0 : groupOwns g a = false := by
        rw [groupOwns, connHasAddr, hconns, hlast]
        simp
        exact fun h => ha h.symm
      have : ([g].countP fun g => groupOwns g a) = 0 := by
        simp [List.countP_cons, hg0]
      rw [this]
      simpa using hcnt a

lemma regInv_registerConn_append (st : Registry) (i : Nat) (addr : Addr)
    (now : Nat) (hinv : RegInv st) (hi : i < st.groups.length)
    (hex : findConnIdx (st.groups.getD i default) addr = none)
    (hbind : findByAddr st.groups addr = none ∨
      ∃ x, findByAddr st.groups addr = some (i, x)) :
    RegInv { groups := st.groups.set i
                ({ st.groups.getD i default with
                   conns := (st.groups.getD i default).conns ++ [mkConn addr now],
                   lastAddr := some addr }) } := by
  obtain ⟨hnd, hcnt⟩ := hinv
  have hgetd : st.groups[i] = st.groups.getD i default :=
    (List.getD_eq_getElem _ _ hi).symm
  have himem : st.groups.getD i default ∈ st.groups := by
    rw [← hgetd]; exact List.getElem_mem _
  set gi := st.groups.getD i default with hgi
  set g' : Group := { gi with conns := gi.conns ++ [mkConn addr now],
                              lastAddr := some addr } with hg'
  have hnotin : addr ∉ gi.conns.map Conn.addr := by
    intro hmem
    have := (connHasAddr_true_iff gi addr).mpr hmem
    rw [(findConnIdx_none_iff gi addr).mp hex] at this
    exact absurd this (by simp)
  have hg'map : g'.conns.map Conn.addr = gi.conns.map Conn.addr ++ [addr] := by
    rw [hg']
    simp [mkConn]
  have hownγ : ∀ b : Addr, groupOwns g' b = true →
      b = addr ∨ connHasAddr gi b = true := by
    intro b h
    rw [groupOwns, Bool.or_eq_true] at h
    rcases h with h | h
    · rw [connHasAddr_eq_any_map, hg'map, List.any_append] at h
      rcases Bool.or_eq_true _ _ |>.mp h with h | h
      · right
        rw [connHasAddr_eq_any_map]
        exact h
      · left
        have : addr == b := by simpa using h
        exact (beq_iff_eq.mp this).symm
    · left
      have : g'.lastAddr = some addr := by rw [hg']
      rw [this] at h
      exact (beq_iff_eq.mp (by simpa using h)).symm
  constructor
  · intro g hg
    rcases List.mem_or_eq_of_mem_set hg with h | rfl
    · exact hnd g h
    · rw [hg'map]
      rw [List.nodup_append]
      refine ⟨hnd _ himem, List.nodup_singleton _, fun b hb hb' => ?_⟩
      have hba : b = addr := by simpa using hb'
      exact hnotin (hba ▸ hb)
  · intro b
    show (st.groups.set i g').countP (fun g => groupOwns g b) ≤ 1
    rw [List.countP_set _ _ _ _ hi]
    have hb1 := hcnt b
    by_cases hp : groupOwns g' b = true
    · rcases hownγ b hp with rfl | hc
      · -- b = addr
        rcases hbind with hnone | ⟨x, hsome⟩
        · have hz : st.groups.countP (fun g => groupOwns g b) = 0 :=
            List.countP_eq_zero.mpr (fun g'' hg'' => by
              simp [(findByAddr_none_iff st.groups b).mp hnone g'' hg''])
          have hzi : groupOwns st.groups[i] b = false := by
            rw [hgetd]
            exact (findByAddr_none_iff st.groups b).mp hnone _ himem
          rw [if_pos hp, if_neg (by rw [hzi]; simp)]
          omega
        · have hpi : groupOwns st.groups[i] b = true := by
            rw [hgetd, hgi]
            exact (findByAddr_some_spec st.groups b i x hsome).2.1
          have hone : 0 < st.groups.countP (fun g => groupOwns g b) :=
            List.countP_pos_iff.mpr ⟨st.groups[i], List.getElem_mem _, hpi⟩
          rw [if_pos hp, if_pos hpi]
          omega
      · have hpi : groupOwns st.groups[i] b = true := by
          rw [hgetd, groupOwns, hc]
          simp
        have hone : 0 < st.groups.countP (fun g => groupOwns g b) :=
          List.countP_pos_iff.mpr ⟨st.groups[i], List.getElem_mem _, hpi⟩
        rw [if_pos hp, if_pos hpi]
        omega
    · rw [if_neg hp]
      split <;> omega

/-! ### Cleanup lemmas -/

lemma cleanupConns_sublist (now : Nat) :
    ∀ l : List Conn, (cleanupConns now l).1.Sublist l := by
  intro l
  induction l with
  | nil => simp [cleanupConns]
  | cons c rest ih =>
    rw [cleanupConns]
    split
    · exact ih.trans (List.sublist_cons_self c rest)
    · split
      · exact ih.cons₂ c
      · exact ih.cons₂ c

lemma cleanupGroups_mem (now : Nat) : ∀ (gs : List Group) (g' : Group),
    g' ∈ (cleanupGroups now gs).1 →
    ∃ g ∈ gs, g' = { g with conns := (cleanupConns now g.conns).1 } ∧
      ¬(g'.conns.length = 0 ∧ now - g'.createdAt > GroupTimeout) := by
  intro gs
  induction gs with
  | nil => intro g' h; exact absurd h (by simp [cleanupGroups])
  | cons g rest ih =>
    intro g' h
    rw [cleanupGroups] at h
    split at h
    · obtain ⟨g0, hg0, he, hk⟩ := ih g' h
      exact ⟨g0, List.mem_cons_of_mem _ hg0, he, hk⟩
    · rename_i hkeep
      rcases List.mem_cons.mp h with rfl | hmem
      · exact ⟨g, List.mem_cons_self _ _, rfl, hkeep⟩
      · obtain ⟨g0, hg0, he, hk⟩ := ih _ hmem
        exact ⟨g0, List.mem_cons_of_mem _ hg0, he, hk⟩

lemma groupOwns_cleanup_mono (now : Nat) (g : Group) (b : Addr)
    (h : groupOwns { g with conns := (cleanupConns now g.conns).1 } b = true) :
    groupOwns g b = true := by
  rw [groupOwns, Bool.or_eq_true] at h ⊢
  rcases h with h | h
  · left
    rw [connHasAddr, List.any_eq_true] at h ⊢
    obtain ⟨c, hc, hcb⟩ := h
    exact ⟨c, (cleanupConns_sublist now g.conns).mem hc, hcb⟩
  · exact Or.inr h

lemma cleanupGroups_countP (now : Nat) (p : Group → Bool)
    (hmono : ∀ g, p { g with conns := (cleanupConns now g.conns).1 } = true →
      p g = true) :
    ∀ gs : List Group, (cleanupGroups now gs).1.countP p ≤ gs.countP p := by
  intro gs
  induction gs with
  | nil => simp [cleanupGroups]
  | cons g rest ih =>
    rw [cleanupGroups]
    split
    · exact le_trans ih (by rw [List.countP_cons]; omega)
    · show (({ g with conns := (cleanupConns now g.conns).1 } : Group)
          :: (cleanupGroups now rest).1).countP p ≤ _
      rw [List.countP_cons, List.countP_cons]
      have hδ : (if p { g with conns := (cleanupConns now g.conns).1 } = true
          then 1 else 0) ≤ (if p g = true then 1 else 0) := by
        split
        · rename_i hp
          rw [if_pos (hmono g hp)]
        · omega
      omega

lemma regInv_cleanup (st : Registry) (now : Nat) (hinv : RegInv st) :
    RegInv (cleanup st now).1 := by
  obtain ⟨hnd, hcnt⟩ := hinv
  constructor
  · intro g' hg'
    obtain ⟨g, hgmem, rfl, -⟩ := cleanupGroups_mem now st.groups g' hg'
    exact List.Nodup.sublist ((cleanupConns_sublist now g.conns).map _)
      (hnd g hgmem)
  · intro a
    exact le_trans
      (cleanupGroups_countP now _ (fun g => groupOwns_cleanup_mono now g a)
        st.groups)
      (hcnt a)

/-! ### Per-operation invariant preservation -/

lemma findGroupIdx_lt {gs : List Group} {id : Bytes} {i : Nat}
    (h : findGroupIdx gs id = some i) : i < gs.length := by
  rw [findGroupIdx, List.findIdx?_eq_some_iff_findIdx_eq] at h
  exact h.1

lemma regInv_registerGroup (st : Registry) (addr : Addr) (pkt rnd : Bytes)
    (sendOk : Bool) (now : Nat) (hinv : RegInv st) :
    RegInv (registerGroup st addr pkt rnd sendOk now).1 := by
  rw [registerGroup]
  split
  · exact hinv
  · split
    · exact hinv
    · rename_i hcap hfound
      split
      · apply regInv_append_group st _ addr hinv rfl rfl
        cases h : findByAddr st.groups addr with
        | none => rfl
        | some p => rw [h] at hfound; exact absurd rfl hfound
      · exact hinv

lemma regInv_registerConn (st : Registry) (addr : Addr) (pkt : Bytes)
    (sendOk : Bool) (now : Nat) (hinv : RegInv st) :
    RegInv (registerConn st addr pkt sendOk now).1 := by
  rw [registerConn]
  cases hfg : findGroupIdx st.groups (pkt.drop 2) with
  | none => exact hinv
  | some i =>
    have hi : i < st.groups.length := findGroupIdx_lt hfg
    simp only
    split
    · exact hinv
    · rename_i hclash
      have hbind : findByAddr st.groups addr = none ∨
          ∃ x, findByAddr st.groups addr = some (i, x) := by
        cases hfa : findByAddr st.groups addr with
        | none => exact Or.inl rfl
        | some p =>
          obtain ⟨k, x⟩ := p
          rw [hfa] at hclash
          have hk : k = i := by
            by_contra hne
            exact hclash (by simpa using hne)
          subst hk
          exact Or.inr ⟨x, rfl⟩
      split
      · exact hinv
      · split
        · exact hinv
        · split
          · rename_i hex
            exact regInv_registerConn_append st i addr now hinv hi hex hbind
          · rename_i hex
            cases hexc : findConnIdx (st.groups.getD i default) addr with
            | none => exact absurd hexc hex
            | some j =>
              apply regInv_updateGroupAt st i
                (fun g => { g with lastAddr := some addr }) hinv hi rfl
              exact Or.inr ⟨addr, rfl, findConnIdx_some_connHasAddr hexc⟩

lemma length_updateGroupAt (st : Registry) (i : Nat) (f : Group → Group) :
    (updateGroupAt st i f).groups.length = st.groups.length :=
  List.length_set _ _ _

lemma regInv_forwardStep (st : Registry) (i : Nat) (acks : List Send)
    (sockOk fwdOk : Bool) (hinv : RegInv st) (hi : i < st.groups.length) :
    RegInv (forwardStep st i acks sockOk fwdOk).1 := by
  rw [forwardStep]
  have hup : RegInv (updateGroupAt st i (fun g => { g with srtSock := true })) :=
    regInv_updateGroupAt st i _ hinv hi rfl (Or.inl rfl)
  split
  · split
    · exact hinv
    · exact regInv_eraseGroupAt st i hinv
  · split
    · exact regInv_eraseGroupAt st i hinv
    · split
      · exact hup
      · exact regInv_eraseGroupAt _ i hup

lemma regInv_handleBound (st : Registry) (i j : Nat) (pkt : Bytes)
    (addr : Addr) (now : Nat) (sockOk fwdOk : Bool) (hinv : RegInv st)
    (hi : i < st.groups.length)
    (hconn : connHasAddr (st.groups.getD i default) addr = true) :
    RegInv (handleBound st i j pkt addr now sockOk fwdOk).1 := by
  rw [handleBound]
  have hmap1 : ∀ g : Group,
      ((updateConnAt g j (fun c => { c with lastRcvd := now })).conns.map
        Conn.addr) = g.conns.map Conn.addr := by
    intro g
    exact map_addr_set_of_addr_eq _ j _ rfl
  have hinv1 : RegInv (updateGroupAt st i
      (fun g => updateConnAt g j (fun c => { c with lastRcvd := now }))) :=
    regInv_updateGroupAt st i _ hinv hi (hmap1 _) (Or.inl rfl)
  set st1 := updateGroupAt st i
    (fun g => updateConnAt g j (fun c => { c with lastRcvd := now })) with hst1
  have hlen1 : st1.groups.length = st.groups.length := length_updateGroupAt _ _ _
  have hi1 : i < st1.groups.length := by rw [hlen1]; exact hi
  split
  · exact hinv1
  · split
    · exact hinv1
    · have hg1 : st1.groups.getD i default
          = updateConnAt (st.groups.getD i default) j
              (fun c => { c with lastRcvd := now }) := by
        rw [hst1, updateGroupAt]
        exact getD_set_self _ _ _ hi
      have hconn1 : connHasAddr (st1.groups.getD i default) addr = true := by
        rw [hg1, connHasAddr_congr addr (hmap1 _)]
        exact hconn
      have hinv2 : RegInv (updateGroupAt st1 i
          (fun g => { g with lastAddr := some addr })) :=
        regInv_updateGroupAt st1 i _ hinv1 hi1 rfl
          (Or.inr ⟨addr, rfl, hconn1⟩)
      set st2 := updateGroupAt st1 i (fun g => { g with lastAddr := some addr })
        with hst2
      have hlen2 : st2.groups.length = st.groups.length := by
        rw [hst2, length_updateGroupAt, hlen1]
      have hi2 : i < st2.groups.length := by rw [hlen2]; exact hi
      dsimp only
      split
      · -- sequence number registered
        have hinv3 : RegInv (updateGroupAt st2 i
            (fun g => updateConnAt g j
              (fun _ => (registerPacket
                ((st2.groups.getD i default).conns.getD j default)
                (getSRTSN pkt)).1))) := by
          apply regInv_updateGroupAt st2 i _ hinv2 hi2 _ (Or.inl rfl)
          exact map_addr_set_of_addr_eq _ j _ (registerPacket_addr _ _)
        apply regInv_forwardStep _ i _ sockOk fwdOk hinv3
        rw [length_updateGroupAt, hlen2]
        exact hi
      · exact regInv_forwardStep _ i _ sockOk fwdOk hinv2 hi2

lemma regInv_handleSRTLAIncoming (st : Registry) (pkt : Bytes) (addr : Addr)
    (rnd : Bytes) (sendOk : Bool) (now : Nat) (sockOk fwdOk : Bool)
    (hinv : RegInv st) :
    RegInv (handleSRTLAIncoming st pkt addr rnd sendOk now sockOk fwdOk).1 := by
  rw [handleSRTLAIncoming]
  split
  · exact regInv_registerGroup st addr pkt rnd sendOk now hinv
  · split
    · exact regInv_registerConn st addr pkt sendOk now hinv
    · cases hfa : findByAddr st.groups addr with
      | none => exact hinv
      | some p =>
        obtain ⟨i, x⟩ := p
        cases x with
        | none => exact hinv
        | some j =>
          obtain ⟨hi, hown, hconn, -⟩ :=
            findByAddr_some_spec st.groups addr i (some j) hfa
          exact regInv_handleBound st i j pkt addr now sockOk fwdOk hinv hi
            (findConnIdx_some_connHasAddr (hconn j rfl))

lemma regInv_step {st st' : Registry} (h : Step st st') (hinv : RegInv st) :
    RegInv st' := by
  cases h with
  | incoming pkt addr rnd sendOk now sockOk fwdOk st =>
    exact regInv_handleSRTLAIncoming st pkt addr rnd sendOk now sockOk fwdOk hinv
  | tick now st => exact regInv_cleanup st now hinv
  | srtReadFail i st => exact regInv_eraseGroupAt st i hinv

lemma reachable_regInv {st : Registry} (h : Reachable st) : RegInv st := by
  induction h with
  | init =>
    constructor
    · intro g hg
      exact absurd hg (by simp [initRegistry])
    · intro a
      simp [initRegistry]
  | step _ hstep ih => exact regInv_step hstep ih

/-! ### Registry size bound -/

lemma cleanupGroups_length (now : Nat) :
    ∀ gs : List Group, (cleanupGroups now gs).1.length ≤ gs.length := by
  intro gs
  induction gs with
  | nil => simp [cleanupGroups]
  | cons g rest ih =>
    rw [cleanupGroups]
    split
    · exact le_trans ih (by simp)
    · show (_ :: (cleanupGroups now rest).1).length ≤ _
      simpa using ih

lemma length_le_registerGroup (st : Registry) (addr : Addr) (pkt rnd : Bytes)
    (sendOk : Bool) (now : Nat) (hle : st.groups.length ≤ MaxGroups) :
    (registerGroup st addr pkt rnd sendOk now).1.groups.length ≤ MaxGroups := by
  rw [registerGroup]
  split
  · exact hle
  · rename_i hcap
    split
    · exact hle
    · split
      · have : st.groups.length < MaxGroups := Nat.lt_of_not_le hcap
        simpa using this
      · exact hle

lemma length_le_forwardStep (st : Registry) (i : Nat) (acks : List Send)
    (sockOk fwdOk : Bool) (hle : st.groups.length ≤ MaxGroups) :
    (forwardStep st i acks sockOk fwdOk).1.groups.length ≤ MaxGroups := by
  have herase : ∀ st0 : Registry, st0.groups.length ≤ MaxGroups →
      (eraseGroupAt st0 i).groups.length ≤ MaxGroups := by
    intro st0 h0
    exact le_trans ((List.eraseIdx_sublist _ _).length_le) h0
  rw [forwardStep]
  split
  · split
    · exact hle
    · exact herase st hle
  · split
    · exact herase st hle
    · have h4 : (updateGroupAt st i
          (fun g => { g with srtSock := true })).groups.length ≤ MaxGroups := by
        rw [length_updateGroupAt]; exact hle
      split
      · exact h4
      · exact herase _ h4

lemma length_le_handleBound (st : Registry) (i j : Nat) (pkt : Bytes)
    (addr : Addr) (now : Nat) (sockOk fwdOk : Bool)
    (hle : st.groups.length ≤ MaxGroups) :
    (handleBound st i j pkt addr now sockOk fwdOk).1.groups.length
      ≤ MaxGroups := by
  rw [handleBound]
  split
  · simpa [length_updateGroupAt] using hle
  · split
    · simpa [length_updateGroupAt] using hle
    · dsimp only
      split
      · apply length_le_forwardStep
        simpa [length_updateGroupAt] using hle
      · apply length_le_forwardStep
        simpa [length_updateGroupAt] using hle

lemma length_le_step {st st' : Registry} (h : Step st st')
    (hle : st.groups.length ≤ MaxGroups) : st'.groups.length ≤ MaxGroups := by
  cases h with
  | incoming pkt addr rnd sendOk now sockOk fwdOk st =>
    rw [handleSRTLAIncoming]
    split
    · exact length_le_registerGroup st addr pkt rnd sendOk now hle
    · split
      · rw [registerConn]
        cases hfg : findGroupIdx st.groups (pkt.drop 2) with
        | none => exact hle
        | some i =>
          simp only
          split
          · exact hle
          · split
            · exact hle
            · split
              · exact hle
              · simpa using hle
      · cases hfa : findByAddr st.groups addr with
        | none => exact hle
        | some p =>
          obtain ⟨i, x⟩ := p
          cases x with
          | none => exact hle
          | some j =>
            exact length_le_handleBound st i j pkt addr now sockOk fwdOk hle
  | tick now st =>
    exact le_trans (cleanupGroups_length now st.groups) hle
  | srtReadFail i st =>
    exact le_trans ((List.eraseIdx_sublist _ _).length_le) hle

lemma reachable_length_le {st : Registry} (h : Reachable st) :
    st.groups.length ≤ MaxGroups := by
  induction h with
  | init => simp [initRegistry, MaxGroups]
  | step _ hstep ih => exact length_le_step hstep ih

lemma forwardStep_true_conns (st : Registry) (i : Nat) (acks : List Send)
    (hi : i < st.groups.length) :
    ((forwardStep st i acks true true).1.groups.getD i default).conns
      = (st.groups.getD i default).conns := by
  rw [forwardStep]
  split
  · rw [if_pos rfl]
  · rw [if_neg (by simp)]
    dsimp only
    rw [if_pos rfl]
    rw [show (updateGroupAt st i _).groups = st.groups.set i _ from rfl]
    rw [getD_set_self _ _ _ hi]

/-! ## Claim theorems -/

/-- **C1.** For every datagram read from a Group's downstream SRT socket
that is at least 16 bytes long: if its first two bytes are `0x8002` or
`0x8003`, a byte-identical copy is sent to the address of every Path
currently in that Group; any other such datagram is sent as one
byte-identical copy to the Group's current `lastAddr` when it is set,
and nowhere when it is not. -/
theorem srt_downstream_fanout (g : Group) (pkt : Bytes)
    (hlen : SRTMinLen ≤ pkt.length) :
    ((getSRTType pkt = SRTTypeACK ∨ getSRTType pkt = SRTTypeNAK) →
      handleSRTData g pkt = g.conns.map (fun c => (c.addr, pkt))) ∧
    (¬(getSRTType pkt = SRTTypeACK ∨ getSRTType pkt = SRTTypeNAK) →
      (∀ dst, g.lastAddr = some dst → handleSRTData g pkt = [(dst, pkt)]) ∧
      (g.lastAddr = none → handleSRTData g pkt = [])) := by
  rw [handleSRTData, if_neg (by omega)]
  constructor
  · intro h
    rw [if_pos h]
  · intro h
    rw [if_neg h]
    exact ⟨fun dst hdst => by rw [hdst], fun hnone => by rw [hnone]⟩

theorem srt_downstream_fanout_witness :
    handleSRTData fanoutGroup fanoutPkt
      = fanoutGroup.conns.map (fun c => (c.addr, fanoutPkt)) :=
  (srt_downstream_fanout fanoutGroup fanoutPkt (by decide)).1
    (Or.inl (by decide))

/-- **C10.** `registerPacket` never writes outside the 10-slot
`recvLog`: for any starting integer value of `recvIdx`, including values
outside `[0,9]`, the slot index is clamped into `[1,10]` before the
write, so every store lands at an index in `[0,9]` of `recvLog` (and the
log keeps its length). -/
theorem registerPacket_write_in_bounds (c : Conn) (sn : Int) :
    ∃ k : Nat, k ≤ 9 ∧
      (registerPacket c sn).1.recvLog = c.recvLog.set k (u32 sn) ∧
      (registerPacket c sn).1.recvLog.length = c.recvLog.length := by
  rw [registerPacket]
  dsimp only
  have h10 : (RecvACKInterval : Int) = 10 := rfl
  by_cases h : c.recvIdx + 1 ≤ 0 ∨ c.recvIdx + 1 > (RecvACKInterval : Int)
  · rw [if_pos h]
    refine ⟨0, by omega, ?_, ?_⟩
    · split <;> rfl
    · split <;> simp
  · rw [if_neg h]
    refine ⟨(c.recvIdx + 1 - 1).toNat, by omega, ?_, ?_⟩
    · split <;> rfl
    · split <;> simp

/-- **C8.** When the registry already holds 200 Groups, any fresh REG1
causes a 2-byte REG-ERR (`0x9210`) to be sent to the sender and leaves
the registry unchanged; moreover the registry never holds more than 200
Groups in any reachable state. -/
theorem registry_capacity (st : Registry) (addr : Addr) (pkt rnd : Bytes)
    (sendOk : Bool) (now : Nat) (hfull : st.groups.length = MaxGroups) :
    registerGroup st addr pkt rnd sendOk now
      = (st, [(addr, putUint16 SRTLATypeRegErr)]) ∧
    (putUint16 SRTLATypeRegErr).length = 2 ∧
    (∀ st' : Registry, Reachable st' → st'.groups.length ≤ MaxGroups) := by
  refine ⟨?_, rfl, fun st' h => reachable_length_le h⟩
  rw [registerGroup, if_pos (by omega)]
  rfl

theorem registry_capacity_witness :
    registerGroup { groups := List.replicate MaxGroups default } 7 [] [] true 0
      = ({ groups := List.replicate MaxGroups default },
          [(7, putUint16 SRTLATypeRegErr)]) ∧
    (putUint16 SRTLATypeRegErr).length = 2 ∧
    (∀ st' : Registry, Reachable st' → st'.groups.length ≤ MaxGroups) :=
  registry_capacity { groups := List.replicate MaxGroups default } 7 [] [] true 0
    (by simp)

/-- **C2.** For every REG1 datagram (258 bytes) from an address that is
accepted (registry below 200 groups, the address not found in any
existing group, REG2 send succeeding), the reply sent to that address is
exactly 258 bytes, begins `0x9201`, and bytes 2..129 of the reply equal
bytes 2..129 of the REG1 (the client's 128-byte half); the new Group's
id has that half as its first 128 bytes. -/
theorem reg1_accepted_reply (st : Registry) (addr : Addr) (pkt rnd : Bytes)
    (now : Nat) (hlen : pkt.length = SRTLAReg1Len)
    (hcap : st.groups.length < MaxGroups)
    (hfree : findByAddr st.groups addr = none)
    (hrnd : rnd.length = SRTLAIDLen / 2) :
    ∃ g : Group,
      registerGroup st addr pkt rnd true now
        = ({ groups := st.groups ++ [g] },
           [(addr, putUint16 SRTLATypeReg2 ++ g.id)]) ∧
      g.id = (pkt.drop 2).take 128 ++ rnd ∧
      (putUint16 SRTLATypeReg2 ++ g.id).length = 258 ∧
      (putUint16 SRTLATypeReg2 ++ g.id).take 2 = [0x92, 0x01] ∧
      ((putUint16 SRTLATypeReg2 ++ g.id).drop 2).take 128
        = (pkt.drop 2).take 128 ∧
      g.id.take 128 = (pkt.drop 2).take 128 ∧
      g.lastAddr = some addr := by
  have h128 : SRTLAIDLen / 2 = 128 := rfl
  have hc : ((pkt.drop 2).take 128).length = 128 := by
    rw [List.length_take, List.length_drop, hlen]
    rfl
  have hcid : goCopy (List.replicate (SRTLAIDLen / 2) 0)
      ((pkt.drop 2).take (SRTLAIDLen / 2)) = (pkt.drop 2).take 128 := by
    rw [h128]
    exact goCopy_eq_src _ _ (by simp [hc])
  have hid : (newGroup ((pkt.drop 2).take 128) rnd now).id
      = (pkt.drop 2).take 128 ++ rnd :=
    newGroup_id _ _ (by rw [h128]; exact hc) hrnd now
  refine ⟨{ newGroup ((pkt.drop 2).take 128) rnd now with
            lastAddr := some addr }, ?_, hid, ?_, ?_, ?_, ?_, rfl⟩
  · rw [registerGroup, if_neg (by omega), if_neg (by rw [hfree]; simp)]
    dsimp only
    rw [hcid, if_pos rfl]
  · rw [List.length_append, show (putUint16 SRTLATypeReg2).length = 2 from rfl]
    have : ({ newGroup ((pkt.drop 2).take 128) rnd now with
              lastAddr := some addr } : Group).id.length = 256 := by
      rw [show ({ newGroup ((pkt.drop 2).take 128) rnd now with
                  lastAddr := some addr } : Group).id
            = (pkt.drop 2).take 128 ++ rnd from hid]
      rw [List.length_append, hc, hrnd, h128]
    omega
  · rw [List.take_left' (show (putUint16 SRTLATypeReg2).length = 2 from rfl)]
    decide
  · rw [List.drop_left' (show (putUint16 SRTLATypeReg2).length = 2 from rfl)]
    rw [show ({ newGroup ((pkt.drop 2).take 128) rnd now with
                lastAddr := some addr } : Group).id
          = (pkt.drop 2).take 128 ++ rnd from hid]
    exact List.take_left' hc
  · rw [show ({ newGroup ((pkt.drop 2).take 128) rnd now with
                lastAddr := some addr } : Group).id
          = (pkt.drop 2).take 128 ++ rnd from hid]
    exact List.take_left' hc

theorem reg1_accepted_reply_witness :
    ∃ g : Group,
      registerGroup initRegistry 42 reg1Fixture (List.replicate 128 9) true 0
        = ({ groups := initRegistry.groups ++ [g] },
           [(42, putUint16 SRTLATypeReg2 ++ g.id)]) ∧
      g.id = (reg1Fixture.drop 2).take 128 ++ List.replicate 128 9 ∧
      (putUint16 SRTLATypeReg2 ++ g.id).length = 258 ∧
      (putUint16 SRTLATypeReg2 ++ g.id).take 2 = [0x92, 0x01] ∧
      ((putUint16 SRTLATypeReg2 ++ g.id).drop 2).take 128
        = (reg1Fixture.drop 2).take 128 ∧
      g.id.take 128 = (reg1Fixture.drop 2).take 128 ∧
      g.lastAddr = some 42 :=
  reg1_accepted_reply initRegistry 42 reg1Fixture (List.replicate 128 9) 0
    (by norm_num [reg1Fixture, putUint16, SRTLAReg1Len, SRTLAIDLen])
    (by norm_num [initRegistry, MaxGroups]) rfl
    (by norm_num [SRTLAIDLen])

lemma flatten_map_putUint32_length :
    ∀ log : List Nat, ((log.map putUint32).flatten).length = 4 * log.length := by
  intro log
  induction log with
  | nil => rfl
  | cons x rest ih =>
    simp only [List.map_cons, List.flatten_cons, List.length_append, ih,
      List.length_cons, length_putUint32]
    omega

/-- **C4.** For every Path, `recvIdx` stays in `[0,10]`; after each SRT
data packet is registered on a Path, exactly when the index reaches 10 a
44-byte SRTLA ACK whose first 32-bit word is `0x91000000` is sent to
that Path's address carrying the 10 recorded sequence numbers in the
order they arrived on that Path, and `recvIdx` is reset to 0; for counts
below 10 no ACK is sent. -/
theorem recv_ack_every_ten :
    (∀ (c : Conn) (sn : Int),
      0 ≤ (registerPacket c sn).1.recvIdx ∧
      (registerPacket c sn).1.recvIdx ≤ 10) ∧
    (∀ (c : Conn) (sn : Int), 0 ≤ c.recvIdx → c.recvIdx + 1 < 10 →
      (registerPacket c sn).2 = []) ∧
    (∀ (c : Conn) (sn : Int), c.recvIdx = 9 →
      (registerPacket c sn).1.recvIdx = 0 ∧
      (registerPacket c sn).2
        = [(c.addr, srtlaAckPkt (c.recvLog.set 9 (u32 sn)))]) ∧
    (∀ log : List Nat, log.length = 10 →
      (srtlaAckPkt log).length = 44 ∧
      (srtlaAckPkt log).take 4 = [0x91, 0, 0, 0]) ∧
    (∀ (a t : Nat) (s0 s1 s2 s3 s4 s5 s6 s7 s8 s9 : Int),
      runPackets (mkConn a t) [s0, s1, s2, s3, s4, s5, s6, s7, s8, s9]
        = (⟨a, t, 0, [u32 s0, u32 s1, u32 s2, u32 s3, u32 s4,
                      u32 s5, u32 s6, u32 s7, u32 s8, u32 s9]⟩,
           [(a, srtlaAckPkt [u32 s0, u32 s1, u32 s2, u32 s3, u32 s4,
                             u32 s5, u32 s6, u32 s7, u32 s8, u32 s9])])) := by
  have h10 : (RecvACKInterval : Int) = 10 := rfl
  refine ⟨?_, ?_, ?_, ?_, ?_⟩
  · intro c sn
    rw [registerPacket]
    dsimp only
    by_cases h : c.recvIdx + 1 ≤ 0 ∨ c.recvIdx + 1 > (RecvACKInterval : Int)
    · rw [if_pos h]
      split <;> dsimp only <;> constructor <;> norm_num
    · rw [if_neg h]
      push_neg at h
      rw [h10] at h
      split <;> dsimp only <;> constructor <;> omega
  · intro c sn h0 hlt
    rw [registerPacket]
    dsimp only
    split
    · rename_i hcl
      rw [h10] at hcl
      omega
    · split
      · rename_i hack
        rw [h10] at hack
        omega
      · rfl
  · intro c sn h9
    rw [registerPacket]
    dsimp only
    rw [h9, h10]
    have e1 : ((9 : Int) + 1 - 1).toNat = 9 := rfl
    have e2 : Int.toNat 9 = 9 := rfl
    norm_num [e1, e2]
  · intro log hlog
    constructor
    · rw [srtlaAckPkt, List.length_append, length_putUint32,
        flatten_map_putUint32_length, hlog]
    · rw [srtlaAckPkt, List.take_left' (length_putUint32 _)]
      decide
  · intro a t s0 s1 s2 s3 s4 s5 s6 s7 s8 s9
    have tn2 : (2:Int).toNat = 2 := rfl
    have tn3 : (3:Int).toNat = 3 := rfl
    have tn4 : (4:Int).toNat = 4 := rfl
    have tn5 : (5:Int).toNat = 5 := rfl
    have tn6 : (6:Int).toNat = 6 := rfl
    have tn7 : (7:Int).toNat = 7 := rfl
    have tn8 : (8:Int).toNat = 8 := rfl
    have tn9 : (9:Int).toNat = 9 := rfl
    have e0 : registerPacket (mkConn a t) s0
        = (⟨a, t, 1, [u32 s0,0,0,0,0,0,0,0,0,0]⟩, []) := by
      norm_num [registerPacket, mkConn, RecvACKInterval]
      rfl
    have e1 : registerPacket ⟨a, t, 1, [u32 s0,0,0,0,0,0,0,0,0,0]⟩ s1
        = (⟨a, t, 2, [u32 s0, u32 s1,0,0,0,0,0,0,0,0]⟩, []) := by
      norm_num [registerPacket, RecvACKInterval]
    have e2 : registerPacket ⟨a, t, 2, [u32 s0, u32 s1,0,0,0,0,0,0,0,0]⟩ s2
        = (⟨a, t, 3, [u32 s0, u32 s1, u32 s2,0,0,0,0,0,0,0]⟩, []) := by
      norm_num [registerPacket, RecvACKInterval, tn2]
    have e3 : registerPacket
        ⟨a, t, 3, [u32 s0, u32 s1, u32 s2,0,0,0,0,0,0,0]⟩ s3
        = (⟨a, t, 4, [u32 s0, u32 s1, u32 s2, u32 s3,0,0,0,0,0,0]⟩, []) := by
      norm_num [registerPacket, RecvACKInterval, tn3]
    have e4 : registerPacket
        ⟨a, t, 4, [u32 s0, u32 s1, u32 s2, u32 s3,0,0,0,0,0,0]⟩ s4
        = (⟨a, t, 5, [u32 s0, u32 s1, u32 s2, u32 s3, u32 s4,0,0,0,0,0]⟩,
           []) := by
      norm_num [registerPacket, RecvACKInterval, tn4]
    have e5 : registerPacket
        ⟨a, t, 5, [u32 s0, u32 s1, u32 s2, u32 s3, u32 s4,0,0,0,0,0]⟩ s5
        = (⟨a, t, 6,
            [u32 s0, u32 s1, u32 s2, u32 s3, u32 s4, u32 s5,0,0,0,0]⟩,
           []) := by
      norm_num [registerPacket, RecvACKInterval, tn5]
    have e6 : registerPacket
        ⟨a, t, 6, [u32 s0, u32 s1, u32 s2, u32 s3, u32 s4, u32 s5,0,0,0,0]⟩ s6
        = (⟨a, t, 7,
            [u32 s0, u32 s1, u32 s2, u32 s3, u32 s4, u32 s5, u32 s6,0,0,0]⟩,
           []) := by
      norm_num [registerPacket, RecvACKInterval, tn6]
    have e7 : registerPacket
        ⟨a, t, 7,
          [u32 s0, u32 s1, u32 s2, u32 s3, u32 s4, u32 s5, u32 s6,0,0,0]⟩ s7
        = (⟨a, t, 8,
            [u32 s0, u32 s1, u32 s2, u32 s3, u32 s4, u32 s5, u32 s6,
             u32 s7,0,0]⟩, []) := by
      norm_num [registerPacket, RecvACKInterval, tn7]
    have e8 : registerPacket
        ⟨a, t, 8,
          [u32 s0, u32 s1, u32 s2, u32 s3, u32 s4, u32 s5, u32 s6,
           u32 s7,0,0]⟩ s8
        = (⟨a, t, 9,
            [u32 s0, u32 s1, u32 s2, u32 s3, u32 s4, u32 s5, u32 s6, u32 s7,
             u32 s8,0]⟩, []) := by
      norm_num [registerPacket, RecvACKInterval, tn8]
    have e9 : registerPacket
        ⟨a, t, 9,
          [u32 s0, u32 s1, u32 s2, u32 s3, u32 s4, u32 s5, u32 s6, u32 s7,
           u32 s8,0]⟩ s9
        = (⟨a, t, 0,
            [u32 s0, u32 s1, u32 s2, u32 s3, u32 s4, u32 s5, u32 s6, u32 s7,
             u32 s8, u32 s9]⟩,
           [(a, srtlaAckPkt
              [u32 s0, u32 s1, u32 s2, u32 s3, u32 s4, u32 s5, u32 s6, u32 s7,
               u32 s8, u32 s9])]) := by
      norm_num [registerPacket, RecvACKInterval, tn9]
    simp only [runPackets, e0, e1, e2, e3, e4, e5, e6, e7, e8, e9,
      List.nil_append, List.append_nil]

theorem recv_ack_every_ten_witness :
    (registerPacket (mkConn 5 0) 100).2 = [] ∧
    (registerPacket ⟨5, 0, 9, List.replicate 10 0⟩ 100).1.recvIdx = 0 :=
  ⟨recv_ack_every_ten.2.1 (mkConn 5 0) 100 (by norm_num [mkConn])
      (by norm_num [mkConn]),
   (recv_ack_every_ten.2.2.1 ⟨5, 0, 9, List.replicate 10 0⟩ 100 rfl).1⟩

lemma cleanupConns_fresh (now : Nat) : ∀ (l : List Conn) (c : Conn),
    c ∈ (cleanupConns now l).1 → now - c.lastRcvd < ConnTimeout := by
  intro l
  induction l with
  | nil => intro c h; exact absurd h (by simp [cleanupConns])
  | cons c0 rest ih =>
    intro c h
    rw [cleanupConns] at h
    split at h
    · exact ih c h
    · rename_i hto
      split at h
      · rcases List.mem_cons.mp h with rfl | hmem
        · omega
        · exact ih c hmem
      · rcases List.mem_cons.mp h with rfl | hmem
        · omega
        · exact ih c hmem

lemma cleanupConns_keepalive (now : Nat) : ∀ (l : List Conn) (c : Conn),
    c ∈ l → now - c.lastRcvd < ConnTimeout →
    KeepalivePeriod ≤ now - c.lastRcvd →
    (c.addr, putUint16 SRTLATypeKeepalive) ∈ (cleanupConns now l).2 := by
  intro l
  induction l with
  | nil => intro c h; exact absurd h (by simp)
  | cons c0 rest ih =>
    intro c h hfresh hka
    rw [cleanupConns]
    rcases List.mem_cons.mp h with rfl | hmem
    · rw [if_neg (by omega), if_pos (by omega)]
      exact List.mem_cons_self _ _
    · split
      · exact ih c hmem hfresh hka
      · split
        · exact List.mem_cons_of_mem _ (ih c hmem hfresh hka)
        · exact ih c hmem hfresh hka

lemma cleanupGroups_sends_mem (now : Nat) : ∀ (gs : List Group) (g : Group)
    (x : Send), g ∈ gs → x ∈ (cleanupConns now g.conns).2 →
    x ∈ (cleanupGroups now gs).2 := by
  intro gs
  induction gs with
  | nil => intro g x h; exact absurd h (by simp)
  | cons g0 rest ih =>
    intro g x h hx
    rw [cleanupGroups]
    rcases List.mem_cons.mp h with rfl | hmem
    · split <;> exact List.mem_append_left _ hx
    · split <;> exact List.mem_append_right _ (ih g x hmem hx)

/-- **C9.** On each janitor tick: every Path with `now − lastRcvd ≥ 4 s`
is removed from its Group; every remaining Path with
`now − lastRcvd ≥ 1 s` is sent a 2-byte `0x9000` keepalive; and every
Group that then has zero Paths and `now − createdAt > 4 s` is removed
from the registry — so a Group never persists past one janitor period
after becoming empty and older than 4 s. -/
theorem janitor_tick (st : Registry) (now : Nat) :
    (∀ g' ∈ (cleanup st now).1.groups, ∀ c ∈ g'.conns,
        now - c.lastRcvd < ConnTimeout) ∧
    (∀ g ∈ st.groups, ∀ c ∈ g.conns,
        now - c.lastRcvd < ConnTimeout → KeepalivePeriod ≤ now - c.lastRcvd →
        (c.addr, putUint16 SRTLATypeKeepalive) ∈ (cleanup st now).2) ∧
    (∀ g' ∈ (cleanup st now).1.groups,
        ¬(g'.conns.length = 0 ∧ now - g'.createdAt > GroupTimeout)) := by
  refine ⟨?_, ?_, ?_⟩
  · intro g' hg' c hc
    obtain ⟨g, -, rfl, -⟩ := cleanupGroups_mem now st.groups g' hg'
    exact cleanupConns_fresh now g.conns c hc
  · intro g hg c hc hfresh hka
    exact cleanupGroups_sends_mem now st.groups g _ hg
      (cleanupConns_keepalive now g.conns c hc hfresh hka)
  · intro g' hg'
    obtain ⟨g, -, -, hk⟩ := cleanupGroups_mem now st.groups g' hg'
    exact hk

theorem janitor_tick_witness :
    (42, putUint16 SRTLATypeKeepalive) ∈ (cleanup boundRegistry 7).2 :=
  (janitor_tick boundRegistry 7).2.1 boundGroupFixture
    (List.mem_cons_self _ _) (mkConn 42 6) (List.mem_cons_self _ _)
    (by norm_num [mkConn, ConnTimeout]) (by norm_num [mkConn, KeepalivePeriod])

/-- **C5.** In every reachable state, no client UDP address appears as a
Path in more than one Group, nor more than once within a single Group's
paths. -/
theorem no_duplicate_addresses (st : Registry) (h : Reachable st) :
    NoDupAddrs st := by
  obtain ⟨hnd, hcnt⟩ := reachable_regInv h
  refine ⟨hnd, fun a => le_trans ?_ (hcnt a)⟩
  apply List.countP_mono_left
  intro g _ hc
  rw [groupOwns, hc]
  rfl

theorem no_duplicate_addresses_witness : NoDupAddrs initRegistry :=
  no_duplicate_addresses initRegistry Reachable.init

/-- **C3.** For every REG2 datagram whose 256-byte id matches an
existing Group, whose source address is not bound to a different Group,
and whose target Group holds fewer than 16 paths: a 2-byte `0x9202` REG3
is sent to the source address, and a Path for that address is present in
the Group afterwards; a new Path is appended only if the REG3 send
succeeded — if the send fails, the registry (in particular the Group's
paths) is unchanged. -/
theorem reg2_accepted (st : Registry) (addr : Addr) (pkt : Bytes)
    (now : Nat) (i : Nat)
    (hid : findGroupIdx st.groups (pkt.drop 2) = some i)
    (hbind : findByAddr st.groups addr = none ∨
      ∃ x, findByAddr st.groups addr = some (i, x))
    (hcap : (st.groups.getD i default).conns.length < MaxConnsPerGroup) :
    ((registerConn st addr pkt true now).2
        = [(addr, putUint16 SRTLATypeReg3)] ∧
      putUint16 SRTLATypeReg3 = [0x92, 0x02] ∧
      connHasAddr
        ((registerConn st addr pkt true now).1.groups.getD i default) addr
        = true) ∧
    (registerConn st addr pkt false now).1 = st := by
  have hi : i < st.groups.length := findGroupIdx_lt hid
  have hclash : (match findByAddr st.groups addr with
      | some (k, _) => k != i
      | none => false) = false := by
    rcases hbind with h | ⟨x, h⟩ <;> rw [h]
    simp
  constructor
  · rw [registerConn, hid]
    dsimp only
    rw [if_neg (by rw [hclash]; simp)]
    rw [if_neg (by
      rintro ⟨h1, h2⟩
      omega)]
    rw [if_neg (by simp)]
    refine ⟨rfl, rfl, ?_⟩
    rw [getD_set_self _ _ _ hi]
    split
    · rename_i hex
      rw [connHasAddr]
      dsimp only
      rw [List.any_append]
      simp [mkConn]
    · rename_i hex
      cases hexc : findConnIdx (st.groups.getD i default) addr with
      | none => exact absurd hexc hex
      | some j =>
        rw [connHasAddr]
        dsimp only
        exact findConnIdx_some_connHasAddr hexc
  · rw [registerConn, hid]
    dsimp only
    rw [if_neg (by rw [hclash]; simp)]
    rw [if_neg (by
      rintro ⟨h1, h2⟩
      omega)]
    rw [if_pos (by simp)]

set_option maxRecDepth 10000 in
theorem reg2_accepted_witness :
    ((registerConn { groups := [groupFixture] } 43 reg2Fixture true 6).2
        = [(43, putUint16 SRTLATypeReg3)] ∧
      putUint16 SRTLATypeReg3 = [0x92, 0x02] ∧
      connHasAddr
        ((registerConn { groups := [groupFixture] } 43 reg2Fixture
            true 6).1.groups.getD 0 default) 43 = true) ∧
    (registerConn { groups := [groupFixture] } 43 reg2Fixture false 6).1
      = { groups := [groupFixture] } :=
  reg2_accepted { groups := [groupFixture] } 43 reg2Fixture 6 0
    (by rfl) (Or.inl (by rfl)) (by show (0:Nat) < 16; norm_num)

/-- **C6.** For every keepalive datagram (first two bytes `0x9000`)
received from an address that is a Path of some Group, exactly one
byte-identical copy is echoed back to that address, and the Group's
`lastAddr` is the same after handling the datagram as before it. -/
theorem keepalive_echo (st : Registry) (pkt : Bytes) (addr : Addr)
    (rnd : Bytes) (sendOk : Bool) (now : Nat) (sockOk fwdOk : Bool)
    (i j : Nat) (hka : getSRTType pkt = SRTLATypeKeepalive)
    (hfa : findByAddr st.groups addr = some (i, some j)) :
    (handleSRTLAIncoming st pkt addr rnd sendOk now sockOk fwdOk).2
      = [(addr, pkt)] ∧
    ((handleSRTLAIncoming st pkt addr rnd sendOk now sockOk
        fwdOk).1.groups.getD i default).lastAddr
      = (st.groups.getD i default).lastAddr := by
  have hi : i < st.groups.length :=
    (findByAddr_some_spec st.groups addr i (some j) hfa).1
  rw [handleSRTLAIncoming]
  rw [if_neg (by
    rintro ⟨-, h⟩
    rw [hka] at h
    exact absurd h (by norm_num [SRTLATypeKeepalive, SRTLATypeReg1]))]
  rw [if_neg (by
    rintro ⟨-, h⟩
    rw [hka] at h
    exact absurd h (by norm_num [SRTLATypeKeepalive, SRTLATypeReg2]))]
  rw [hfa]
  dsimp only
  rw [handleBound]
  dsimp only
  rw [if_pos hka]
  refine ⟨rfl, ?_⟩
  rw [show (updateGroupAt st i _).groups = st.groups.set i _ from rfl]
  rw [getD_set_self _ _ _ hi]
  rfl

set_option maxRecDepth 10000 in
/-- **C7 (counterexample).** A REG2 replay from an address that is
already a Path of the matching group is an inbound datagram from a Path
address, yet the Path's `lastRcvd` is not updated to the receipt time:
here the conn's `lastRcvd` stays 6 although the datagram arrives at
time 20. -/
theorem reg2_replay_lastRcvd_stale :
    isSRTLAReg2 reg2Fixture ∧
    connHasAddr (boundRegistry.groups.getD 0 default) 42 = true ∧
    ((((handleSRTLAIncoming boundRegistry reg2Fixture 42 [] true 20 true
        true).1.groups.getD 0 default).conns.getD 0 default).lastRcvd = 6) ∧
    (6 : Nat) ≠ 20 :=
  ⟨by decide, rfl, rfl, by decide⟩

/-- **C7 (amended).** For every inbound datagram that is not a
well-formed REG1 or REG2 registration datagram, arriving from an address
that is currently a Path of some Group (and with the downstream socket
and forward write succeeding, so the Group survives), that Path's
`lastRcvd` timestamp is updated to the time of receipt. (A REG2 from an
address already registered as a Path leaves that Path's `lastRcvd`
unchanged; a REG2 creating a new Path initialises its `lastRcvd` to the
time of receipt.) -/
theorem inbound_nonreg_updates_lastRcvd (st : Registry) (pkt : Bytes)
    (addr : Addr) (rnd : Bytes) (sendOk : Bool) (now : Nat) (i j : Nat)
    (h1 : ¬ isSRTLAReg1 pkt) (h2 : ¬ isSRTLAReg2 pkt)
    (hfa : findByAddr st.groups addr = some (i, some j)) :
    (((handleSRTLAIncoming st pkt addr rnd sendOk now true
        true).1.groups.getD i default).conns.getD j default).lastRcvd
      = now := by
  obtain ⟨hi, -, hconn, -⟩ := findByAddr_some_spec st.groups addr i (some j) hfa
  obtain ⟨hj, haddr⟩ := findConnIdx_some_spec (hconn j rfl)
  rw [handleSRTLAIncoming, if_neg h1, if_neg h2, hfa]
  dsimp only
  rw [handleBound]
  dsimp only
  have hA1 : (updateGroupAt st i
      (fun g => updateConnAt g j (fun c => { c with lastRcvd := now }))
        ).groups.getD i default
      = updateConnAt (st.groups.getD i default) j
          (fun c => { c with lastRcvd := now }) := by
    rw [show (updateGroupAt st i _).groups = st.groups.set i _ from rfl]
    rw [getD_set_self _ _ _ hi]
  have hA2 : (updateConnAt (st.groups.getD i default) j
      (fun c => { c with lastRcvd := now })).conns.getD j default
      = { st.groups.getD i default |>.conns.getD j default with
          lastRcvd := now } := by
    rw [updateConnAt]
    exact getD_set_self _ _ _ hj
  split
  · rw [hA1, hA2]
  · split
    · rw [hA1, hA2]
    · set st1 := updateGroupAt st i
        (fun g => updateConnAt g j (fun c => { c with lastRcvd := now }))
        with hst1
      set st2 := updateGroupAt st1 i
        (fun g => { g with lastAddr := some addr }) with hst2
      have hlen1 : st1.groups.length = st.groups.length :=
        length_updateGroupAt _ _ _
      have hi1 : i < st1.groups.length := by omega
      have hlen2 : st2.groups.length = st.groups.length := by
        rw [hst2, length_updateGroupAt, hlen1]
      have hi2 : i < st2.groups.length := by omega
      have hB : st2.groups.getD i default
          = { st1.groups.getD i default with lastAddr := some addr } := by
        rw [hst2, show (updateGroupAt st1 i _).groups
              = st1.groups.set i _ from rfl]
        rw [getD_set_self _ _ _ hi1]
      have hC : (st2.groups.getD i default).conns.getD j default
          = { st.groups.getD i default |>.conns.getD j default with
              lastRcvd := now } := by
        rw [hB]
        show (st1.groups.getD i default).conns.getD j default = _
        rw [hst1, hA1, hA2]
      split
      · -- a data packet: the conn is replaced by the registerPacket result
        have hj2 : j < (st2.groups.getD i default).conns.length := by
          rw [hB]
          show j < (st1.groups.getD i default).conns.length
          rw [hA1, updateConnAt]
          simpa using hj
        have hi3 : i < (updateGroupAt st2 i
            (fun g => updateConnAt g j
              (fun _ => (registerPacket
                ((st2.groups.getD i default).conns.getD j default)
                (getSRTSN pkt)).1))).groups.length := by
          rw [length_updateGroupAt]; exact hi2
        rw [forwardStep_true_conns _ i _ hi3]
        rw [show (updateGroupAt st2 i
            (fun g => updateConnAt g j
              (fun _ => (registerPacket
                ((st2.groups.getD i default).conns.getD j default)
                (getSRTSN pkt)).1))).groups
          = st2.groups.set i (updateConnAt (st2.groups.getD i default) j
              (fun _ => (registerPacket
                ((st2.groups.getD i default).conns.getD j default)
                (getSRTSN pkt)).1)) from rfl]
        rw [getD_set_self _ _ _ hi2]
        rw [updateConnAt]
        dsimp only
        rw [getD_set_self _ _ _ hj2]
        rw [registerPacket_lastRcvd, hC]
      · rw [forwardStep_true_conns st2 i _ hi2, hC]

theorem inbound_nonreg_updates_lastRcvd_witness :
    (((handleSRTLAIncoming boundRegistry keepaliveFixture 42 [] true 9 true
        true).1.groups.getD 0 default).conns.getD 0 default).lastRcvd
      = 9 :=
  inbound_nonreg_updates_lastRcvd boundRegistry keepaliveFixture 42 [] true 9
    0 0 (by decide) (by decide) rfl

theorem keepalive_echo_witness :
    (handleSRTLAIncoming boundRegistry keepaliveFixture 42 [] true 7
        true true).2 = [(42, keepaliveFixture)] ∧
    ((handleSRTLAIncoming boundRegistry keepaliveFixture 42 [] true 7
        true true).1.groups.getD 0 default).lastAddr
      = (boundRegistry.groups.getD 0 default).lastAddr :=
  keepalive_echo boundRegistry keepaliveFixture 42 [] true 7 true true 0 0
    (by rfl) (by rfl)

end GoSrtla
